import Mathlib

/-!
Verification of the chord-analysis core of the chord-ai repository
(src/lib/audio-analyzer.ts), as a shallow embedding in Lean 4.

Numbers: JavaScript floats are modelled as exact rationals (ℚ); the two
places where the source computes an irrational value (the square roots in
cosine similarity, and the standard deviation used by the tempo outlier
filter) are handled as follows: cosine similarity is embedded over ℝ with
Real.sqrt, and the tempo filter condition |x - mean| <= 2*sqrt(variance)
is embedded by the exact-arithmetic equivalent (x - mean)^2 <= 4*variance
(the equivalence over ℝ is proved below as abs_le_two_sqrt_iff_sq).

The per-window spectral computation (Hamming window, DFT magnitudes,
frequency-to-pitch-class with log2) is transcendental; the embeddings of
extractChromaFeatures and analyzeAudioBuffer are therefore parameterised
over it: extractChromaFeatures takes the magnitude function `mags`
(modelling computeFFTMagnitudes applied after applyHammingWindow) and the
pitch-class map `pc` (modelling frequencyToPitchClass); analyzeAudioBuffer
takes the per-window detector `det` (modelling detectChordFromChroma
composed with extractChromaFeatures, a pure function of the window's
samples). All structural facts proved about them hold for every choice of
these parameters, and the source guarantees the parameters' assumed facts
(DFT magnitudes are square roots, hence nonnegative, and are zero on a
zero frame).
-/

/-- One detected chord segment, as produced by AudioAnalyzer.analyzeAudioBuffer
(audio-analyzer.ts lines 36-41): a chord name, a start time in seconds, a
duration in seconds and a confidence. -/
structure ChordSegment where
  name : String
  time : ℚ
  duration : ℚ
  confidence : ℚ
deriving DecidableEq, Repr

/-- Tail-merging loop of AudioAnalyzer.mergeConsecutiveChords
(audio-analyzer.ts lines 236-250): `current` is the segment being grown;
a following segment with the same name is absorbed by extending the
duration to its end and taking the larger confidence, a segment with a
different name closes `current` and starts growing from the new one. -/
def mergeAux (current : ChordSegment) : List ChordSegment → List ChordSegment
  | [] => [current]
  | c :: rest =>
    if c.name = current.name then
      mergeAux { current with
                 duration := c.time + c.duration - current.time,
                 confidence := max current.confidence c.confidence } rest
    else
      current :: mergeAux c rest

/-- AudioAnalyzer.mergeConsecutiveChords (audio-analyzer.ts lines 216-252):
an empty list stays empty, otherwise the first segment seeds the merging
loop and the last grown segment is always flushed. -/
def mergeConsecutiveChords : List ChordSegment → List ChordSegment
  | [] => []
  | c :: rest => mergeAux c rest

/-- audio-analyzer.ts line 28: `duration = audioBuffer.duration`, which for a
decoded buffer is sample count divided by sample rate. Caveat of the
rational embedding: for a non-empty buffer at sample rate exactly 0 the
source's floating-point division yields Infinity and the sliding loop
below never terminates, while ℚ division by zero yields 0; no theorem in
this file draws a conclusion about that divergent case (statements over
nonpositive rates are restricted to strictly negative ones, where the
source also computes a negative duration and runs zero iterations). -/
def durationOf (channelData : List ℚ) (sampleRate : ℚ) : ℚ :=
  (channelData.length : ℚ) / sampleRate

/-- audio-analyzer.ts lines 45-47: the sample window for the analysis step at
`time` seconds, `channelData.slice(floor(time*sampleRate),
floor((time+2.0)*sampleRate))` with the 2.0-second analysisWindowDuration. -/
def windowAt (channelData : List ℚ) (sampleRate : ℚ) (time : ℚ) : List ℚ :=
  let startSample := (⌊time * sampleRate⌋).toNat
  let endSample := (⌊(time + 2) * sampleRate⌋).toNat
  (channelData.drop startSample).take (endSample - startSample)

/-- One iteration of the sliding loop of AudioAnalyzer.analyzeAudioBuffer
(audio-analyzer.ts lines 44-63) at hop index `n` (hop duration 1.0 s, so the
window starts at `time = n` seconds): run the per-window detector `det`
(detectChordFromChroma of the window's chroma) and emit a provisional
segment exactly when the returned confidence is strictly above 0.3. -/
def analysisStep (det : List ℚ → String × ℚ) (channelData : List ℚ)
    (sampleRate : ℚ) (n : ℕ) : Option ChordSegment :=
  let time : ℚ := n
  let chordResult := det (windowAt channelData sampleRate time)
  if chordResult.2 > 3 / 10 then
    some { name := chordResult.1, time := time, duration := 2,
           confidence := chordResult.2 }
  else
    none

/-- The provisional segment list built by the sliding loop of
AudioAnalyzer.analyzeAudioBuffer (audio-analyzer.ts lines 44-63). The
source loop is `for (time = 0; time < duration - 2.0; time += 1.0)`, so the
hop indices n that run are exactly those with (n : ℚ) < duration - 2,
i.e. n < ⌈duration - 2⌉₊. -/
def provisionalChords (det : List ℚ → String × ℚ) (channelData : List ℚ)
    (sampleRate : ℚ) : List ChordSegment :=
  (List.range ⌈durationOf channelData sampleRate - 2⌉₊).filterMap
    (analysisStep det channelData sampleRate)

/-- AudioAnalyzer.analyzeAudioBuffer (audio-analyzer.ts lines 20-67):
the sliding-window loop followed by the merge pass. -/
def analyzeAudioBuffer (det : List ℚ → String × ℚ) (channelData : List ℚ)
    (sampleRate : ℚ) : List ChordSegment :=
  mergeConsecutiveChords (provisionalChords det channelData sampleRate)

/-- The fixed 24-entry chord template bank of
AudioAnalyzer.detectChordFromChroma (audio-analyzer.ts lines 149-176),
in source enumeration order; each mask has 12 entries indexed by pitch
class 0 = C, 1 = C#, ..., 11 = B. -/
def chordTemplates : List (String × List ℚ) :=
  [("C",   [1, 0, 0, 0, 1, 0, 0, 1, 0, 0, 0, 0]),
   ("C#",  [0, 1, 0, 0, 0, 1, 0, 0, 1, 0, 0, 0]),
   ("D",   [0, 0, 1, 0, 0, 0, 1, 0, 0, 1, 0, 0]),
   ("D#",  [0, 0, 0, 1, 0, 0, 0, 1, 0, 0, 1, 0]),
   ("E",   [0, 0, 0, 0, 1, 0, 0, 0, 1, 0, 0, 1]),
   ("F",   [1, 0, 0, 0, 0, 1, 0, 0, 0, 1, 0, 0]),
   ("F#",  [0, 1, 0, 0, 0, 0, 1, 0, 0, 0, 1, 0]),
   ("G",   [0, 0, 1, 0, 0, 0, 0, 1, 0, 0, 0, 1]),
   ("G#",  [1, 0, 0, 1, 0, 0, 0, 0, 1, 0, 0, 0]),
   ("A",   [0, 1, 0, 0, 1, 0, 0, 0, 0, 1, 0, 0]),
   ("A#",  [0, 0, 1, 0, 0, 1, 0, 0, 0, 0, 1, 0]),
   ("B",   [0, 0, 0, 1, 0, 0, 1, 0, 0, 0, 0, 1]),
   ("Am",  [1, 0, 0, 1, 0, 0, 0, 1, 0, 0, 0, 0]),
   ("A#m", [0, 1, 0, 0, 1, 0, 0, 0, 1, 0, 0, 0]),
   ("Bm",  [0, 0, 1, 0, 0, 1, 0, 0, 0, 1, 0, 0]),
   ("Cm",  [1, 0, 0, 1, 0, 0, 0, 1, 0, 0, 0, 0]),
   ("C#m", [0, 1, 0, 0, 1, 0, 0, 0, 1, 0, 0, 0]),
   ("Dm",  [0, 0, 1, 0, 0, 1, 0, 0, 0, 1, 0, 0]),
   ("D#m", [0, 0, 0, 1, 0, 0, 1, 0, 0, 0, 1, 0]),
   ("Em",  [0, 0, 0, 0, 1, 0, 0, 1, 0, 0, 0, 1]),
   ("Fm",  [1, 0, 0, 0, 0, 1, 0, 0, 1, 0, 0, 0]),
   ("F#m", [0, 1, 0, 0, 0, 0, 1, 0, 0, 1, 0, 0]),
   ("Gm",  [0, 0, 1, 0, 0, 0, 0, 1, 0, 0, 1, 0]),
   ("G#m", [0, 0, 0, 1, 0, 0, 0, 0, 1, 0, 0, 1])]

/-- The pitch classes of the triad a major chord with the given root pitch
class consists of, per the source's own comments on the template bank
(root, major third, perfect fifth). -/
def majorTriad (root : ℕ) : List ℕ := [root % 12, (root + 4) % 12, (root + 7) % 12]

/-- The pitch classes of the triad a minor chord with the given root pitch
class consists of, per the source's own comments on the template bank
(root, minor third, perfect fifth). -/
def minorTriad (root : ℕ) : List ℕ := [root % 12, (root + 3) % 12, (root + 7) % 12]

/-- The set of pitch classes a 12-entry 0/1 template mask marks. -/
def markedClasses (mask : List ℚ) : List ℕ :=
  (List.range 12).filter (fun i => decide (mask.getD i 0 = 1))

/-- The key scoring profiles of detectKey (audio-analyzer.ts lines 348-375),
in source enumeration order: for each of the 24 candidate keys, the
diatonic chords of that key with their integer weights. -/
def keyProfiles : List (String × List (String × ℚ)) :=
  [("C",   [("C", 3), ("Dm", 2), ("Em", 2), ("F", 3), ("G", 3), ("Am", 2), ("Bdim", 1)]),
   ("G",   [("G", 3), ("Am", 2), ("Bm", 2), ("C", 3), ("D", 3), ("Em", 2), ("F#dim", 1)]),
   ("D",   [("D", 3), ("Em", 2), ("F#m", 2), ("G", 3), ("A", 3), ("Bm", 2), ("C#dim", 1)]),
   ("A",   [("A", 3), ("Bm", 2), ("C#m", 2), ("D", 3), ("E", 3), ("F#m", 2), ("G#dim", 1)]),
   ("E",   [("E", 3), ("F#m", 2), ("G#m", 2), ("A", 3), ("B", 3), ("C#m", 2), ("D#dim", 1)]),
   ("B",   [("B", 3), ("C#m", 2), ("D#m", 2), ("E", 3), ("F#", 3), ("G#m", 2), ("A#dim", 1)]),
   ("F#",  [("F#", 3), ("G#m", 2), ("A#m", 2), ("B", 3), ("C#", 3), ("D#m", 2), ("E#dim", 1)]),
   ("F",   [("F", 3), ("Gm", 2), ("Am", 2), ("A#", 3), ("C", 3), ("Dm", 2), ("Edim", 1)]),
   ("A#",  [("A#", 3), ("Cm", 2), ("Dm", 2), ("D#", 3), ("F", 3), ("Gm", 2), ("Adim", 1)]),
   ("D#",  [("D#", 3), ("Fm", 2), ("Gm", 2), ("G#", 3), ("A#", 3), ("Cm", 2), ("Ddim", 1)]),
   ("G#",  [("G#", 3), ("A#m", 2), ("Cm", 2), ("C#", 3), ("D#", 3), ("Fm", 2), ("Gdim", 1)]),
   ("C#",  [("C#", 3), ("D#m", 2), ("Fm", 2), ("F#", 3), ("G#", 3), ("A#m", 2), ("Cdim", 1)]),
   ("Am",  [("Am", 3), ("Bdim", 1), ("C", 3), ("Dm", 2), ("Em", 2), ("F", 3), ("G", 3)]),
   ("Em",  [("Em", 3), ("F#dim", 1), ("G", 3), ("Am", 2), ("Bm", 2), ("C", 3), ("D", 3)]),
   ("Bm",  [("Bm", 3), ("C#dim", 1), ("D", 3), ("Em", 2), ("F#m", 2), ("G", 3), ("A", 3)]),
   ("F#m", [("F#m", 3), ("G#dim", 1), ("A", 3), ("Bm", 2), ("C#m", 2), ("D", 3), ("E", 3)]),
   ("C#m", [("C#m", 3), ("D#dim", 1), ("E", 3), ("F#m", 2), ("G#m", 2), ("A", 3), ("B", 3)]),
   ("G#m", [("G#m", 3), ("A#dim", 1), ("B", 3), ("C#m", 2), ("D#m", 2), ("E", 3), ("F#", 3)]),
   ("D#m", [("D#m", 3), ("E#dim", 1), ("F#", 3), ("G#m", 2), ("A#m", 2), ("B", 3), ("C#", 3)]),
   ("Dm",  [("Dm", 3), ("Edim", 1), ("F", 3), ("Gm", 2), ("Am", 2), ("A#", 3), ("C", 3)]),
   ("Gm",  [("Gm", 3), ("Adim", 1), ("A#", 3), ("Cm", 2), ("Dm", 2), ("D#", 3), ("F", 3)]),
   ("Cm",  [("Cm", 3), ("Ddim", 1), ("D#", 3), ("Fm", 2), ("Gm", 2), ("G#", 3), ("A#", 3)]),
   ("Fm",  [("Fm", 3), ("Gdim", 1), ("G#", 3), ("A#m", 2), ("Cm", 2), ("C#", 3), ("D#", 3)]),
   ("A#m", [("A#m", 3), ("Cdim", 1), ("C#", 3), ("D#m", 2), ("Fm", 2), ("F#", 3), ("G#", 3)])]

/-- Occurrence counting of detectKey (audio-analyzer.ts lines 386-388):
one step of building the chordCounts object; a JavaScript object keeps
first-insertion key order. -/
def addCount (acc : List (String × ℕ)) (chord : String) : List (String × ℕ) :=
  if acc.any (fun p => p.1 = chord) then
    acc.map (fun p => if p.1 = chord then (p.1, p.2 + 1) else p)
  else
    acc ++ [(chord, 1)]

/-- The chordCounts object of detectKey: occurrence count of each distinct
chord name, in first-occurrence order. The source rebuilds it inside the
key loop, but it does not depend on the key, so it is computed once here. -/
def chordCounts (chords : List String) : List (String × ℕ) :=
  chords.foldl addCount []

/-- The weighted score of one candidate key in detectKey (audio-analyzer.ts
lines 390-394): sum over the counted chords of count times the profile
weight, where a chord absent from the profile weighs 0. -/
def keyScore (counts : List (String × ℕ)) (profile : List (String × ℚ)) : ℚ :=
  (counts.map (fun p => (p.2 : ℚ) * ((profile.lookup p.1).getD 0))).sum

/-- detectKey (audio-analyzer.ts lines 344-403): an empty chord list returns
the fixed default key "C"; otherwise the candidate keys are scanned in
profile order starting from bestKey = "C", bestScore = 0, and a key
replaces the best exactly when its score is strictly greater. -/
def detectKey (chords : List String) : String :=
  if chords = [] then "C"
  else
    let counts := chordCounts chords
    (keyProfiles.foldl
      (fun best kp =>
        let score := keyScore counts kp.2
        if score > best.2 then (kp.1, score) else best)
      ("C", 0)).1

/-- Inter-onset intervals of estimateTempo (audio-analyzer.ts lines 410-413):
time[i] - time[i-1] for consecutive segments. -/
def intervalsOf (chords : List ChordSegment) : List ℚ :=
  List.zipWith (fun prev next => next.time - prev.time) chords chords.tail

/-- The mean of the interval list (audio-analyzer.ts line 416). -/
def meanOf (l : List ℚ) : ℚ := l.sum / (l.length : ℚ)

/-- The population variance of the interval list (audio-analyzer.ts
line 417). -/
def varianceOf (l : List ℚ) : ℚ :=
  (l.map (fun x => (x - meanOf l) ^ 2)).sum / (l.length : ℚ)

/-- The outlier filter of estimateTempo (audio-analyzer.ts lines 420-422):
keep the intervals with |x - mean| <= 2 * sqrt(variance). Embedded in exact
arithmetic by the equivalent comparison (x - mean)^2 <= 4 * variance; the
equivalence over ℝ (for the nonnegative variance) is abs_le_two_sqrt_iff_sq
below. -/
def filteredIntervalsOf (chords : List ChordSegment) : List ℚ :=
  let intervals := intervalsOf chords
  intervals.filter (fun x =>
    decide ((x - meanOf intervals) ^ 2 ≤ 4 * varianceOf intervals))

/-- The common-BPM snap table of estimateTempo (audio-analyzer.ts
line 438). -/
def commonBPMs : List ℚ :=
  [60, 65, 70, 75, 80, 85, 90, 95, 100, 105, 110, 115, 120, 125, 130, 135,
   140, 145, 150, 160, 170, 180]

/-- The final snap of estimateTempo (audio-analyzer.ts lines 439-441):
Array.reduce without a seed starts from the first table entry and replaces
it exactly when the candidate is strictly closer to the computed BPM. -/
def snapToCommonBPM (bpm : ℚ) : ℚ :=
  commonBPMs.tail.foldl
    (fun prev curr => if |curr - bpm| < |prev - bpm| then curr else prev)
    (commonBPMs.headD 0)

/-- The tail of estimateTempo after the outlier filter (audio-analyzer.ts
lines 427-441): sort ascending, take the entry at index floor(length/2) as
the median, convert to BPM by 60/median, apply the octave correction
(double below 60, then halve above 200), and snap to the common table. -/
def tempoFromIntervals (filteredIntervals : List ℚ) : ℚ :=
  let sortedIntervals := List.insertionSort (fun a b => a ≤ b) filteredIntervals
  let medianInterval := sortedIntervals.getD (sortedIntervals.length / 2) 0
  let bpm := 60 / medianInterval
  let doubled := if bpm < 60 then bpm * 2 else bpm
  let folded := if doubled > 200 then doubled / 2 else doubled
  snapToCommonBPM folded

/-- estimateTempo (audio-analyzer.ts lines 406-442): fewer than 3 segments
return the fixed default 120 BPM; an empty outlier-filtered interval list
also returns 120; otherwise the median-based estimate is computed. -/
def estimateTempo (chords : List ChordSegment) : ℚ :=
  if chords.length < 3 then 120
  else
    let filteredIntervals := filteredIntervalsOf chords
    if filteredIntervals = [] then 120
    else tempoFromIntervals filteredIntervals

/-- One chroma accumulation step of AudioAnalyzer.extractChromaFeatures
(audio-analyzer.ts line 90): add a magnitude to the bin of one pitch
class. -/
def addToChroma (chroma : List ℚ) (i : Fin 12) (v : ℚ) : List ℚ :=
  chroma.set i (chroma.getD i 0 + v)

/-- The inner bin loop of AudioAnalyzer.extractChromaFeatures
(audio-analyzer.ts lines 80-92) for one 4096-sample sub-window: compute the
magnitude spectrum (`mags`, modelling computeFFTMagnitudes after
applyHammingWindow), and accumulate each bin whose centre frequency
`bin * sampleRate / (2 * mags.length)` lies strictly inside (80, 2000) Hz
into the chroma bin given by the pitch-class map `pc` (modelling
frequencyToPitchClass). -/
def subWindowChroma (mags : List ℚ → List ℚ) (pc : ℚ → Fin 12)
    (sampleRate : ℚ) (window : List ℚ) (chroma : List ℚ) : List ℚ :=
  let fftMagnitudes := mags window
  (List.range fftMagnitudes.length).foldl
    (fun ch (bin : ℕ) =>
      let frequency := (bin : ℚ) * sampleRate / (2 * (fftMagnitudes.length : ℚ))
      if 80 < frequency ∧ frequency < 2000 then
        addToChroma ch (pc frequency) (fftMagnitudes.getD bin 0)
      else ch)
    chroma

/-- The accumulation phase of AudioAnalyzer.extractChromaFeatures
(audio-analyzer.ts lines 71-93): start from the all-zero 12-entry vector
and fold the bin loop over the floor(length/4096) whole 4096-sample
sub-windows of the input. -/
def chromaAccum (mags : List ℚ → List ℚ) (pc : ℚ → Fin 12)
    (audioData : List ℚ) (sampleRate : ℚ) : List ℚ :=
  let numWindows := audioData.length / 4096
  (List.range numWindows).foldl
    (fun ch w =>
      subWindowChroma mags pc sampleRate
        ((audioData.drop (w * 4096)).take 4096) ch)
    (List.replicate 12 0)

/-- AudioAnalyzer.extractChromaFeatures (audio-analyzer.ts lines 70-104):
accumulate, then normalise by the maximum entry when that maximum is
strictly positive, else return the accumulated vector unchanged. -/
def extractChromaFeatures (mags : List ℚ → List ℚ) (pc : ℚ → Fin 12)
    (audioData : List ℚ) (sampleRate : ℚ) : List ℚ :=
  let chroma := chromaAccum mags pc audioData sampleRate
  let maxChroma := chroma.maximum.unbot' 0
  if maxChroma > 0 then chroma.map (fun x => x / maxChroma) else chroma

/-- AudioAnalyzer.calculateCorrelation (audio-analyzer.ts lines 197-213):
cosine similarity of two 12-entry vectors, with the guard returning 0 when
either squared magnitude is 0. Embedded over ℝ because of the square
roots. -/
noncomputable def calculateCorrelation (chroma template : Fin 12 → ℝ) : ℝ :=
  let dotProduct := ∑ i, chroma i * template i
  let chromaMagnitude := ∑ i, chroma i * chroma i
  let templateMagnitude := ∑ i, template i * template i
  if chromaMagnitude = 0 ∨ templateMagnitude = 0 then 0
  else dotProduct / (Real.sqrt chromaMagnitude * Real.sqrt templateMagnitude)

/-- Justification of the exact-arithmetic embedding of the tempo outlier
filter: over ℝ, for a nonnegative variance v, the source condition
|a| <= 2*sqrt(v) is equivalent to a^2 <= 4*v. -/
theorem abs_le_two_sqrt_iff_sq (a v : ℝ) (hv : 0 ≤ v) :
    |a| ≤ 2 * Real.sqrt v ↔ a ^ 2 ≤ 4 * v := by
  constructor
  · intro h
    nlinarith [Real.sq_sqrt hv, Real.sqrt_nonneg v, sq_abs a, abs_nonneg a]
  · intro h
    nlinarith [Real.sq_sqrt hv, Real.sqrt_nonneg v, sq_abs a, abs_nonneg a]

/-- The merging loop never changes the name of the segment being grown: the
head of its output carries the seed's name. -/
theorem mergeAux_head_name (l : List ChordSegment) :
    ∀ c : ChordSegment, ((mergeAux c l).head?.map ChordSegment.name) = some c.name := by
  induction l with
  | nil => intro c; rfl
  | cons x rest ih =>
    intro c
    simp only [mergeAux]
    by_cases h : x.name = c.name
    · rw [if_pos h]
      exact ih _
    · rw [if_neg h]
      rfl

/-- Adjacent output segments of the merging loop have different names. -/
theorem mergeAux_chain_ne (l : List ChordSegment) :
    ∀ c : ChordSegment,
      (mergeAux c l).Chain' (fun a b => a.name ≠ b.name) := by
  induction l with
  | nil => intro c; simp [mergeAux]
  | cons x rest ih =>
    intro c
    simp only [mergeAux]
    by_cases h : x.name = c.name
    · rw [if_pos h]
      exact ih _
    · rw [if_neg h]
      rw [List.chain'_cons']
      refine ⟨?_, ih x⟩
      intro y hy
      have hname := mergeAux_head_name rest x
      rw [hy] at hname
      have : y.name = x.name := Option.some.inj hname
      intro hcy
      exact h (this ▸ hcy.symm)

/-- The start times of the merge output form a sublist of the start times of
the input: absorption keeps the grown segment's start time. -/
theorem mergeAux_times_sublist (l : List ChordSegment) :
    ∀ c : ChordSegment,
      ((mergeAux c l).map ChordSegment.time).Sublist
        ((c :: l).map ChordSegment.time) := by
  induction l with
  | nil => intro c; simp [mergeAux]
  | cons x rest ih =>
    intro c
    simp only [mergeAux]
    by_cases h : x.name = c.name
    · rw [if_pos h]
      refine (ih _).trans ?_
      simp only [List.map_cons]
      exact List.Sublist.cons₂ _ (List.sublist_cons_self _ _)
    · rw [if_neg h]
      simp only [List.map_cons]
      exact List.Sublist.cons₂ _ (ih x)

/-- A provisional segment emitted at hop index n starts at time n seconds. -/
theorem analysisStep_time {det : List ℚ → String × ℚ} {channelData : List ℚ}
    {sampleRate : ℚ} {n : ℕ} {s : ChordSegment}
    (h : analysisStep det channelData sampleRate n = some s) : s.time = n := by
  simp only [analysisStep] at h
  split at h
  · cases h
    rfl
  · cases h

/-- The provisional segment list of the sliding loop has strictly increasing
start times: hop indices increase and each emitted segment starts at its hop
index. -/
theorem provisional_times_pairwise (det : List ℚ → String × ℚ)
    (channelData : List ℚ) (sampleRate : ℚ) :
    (provisionalChords det channelData sampleRate).Pairwise
      (fun a b => a.time < b.time) := by
  unfold provisionalChords
  refine List.Pairwise.filterMap _ ?_ (List.pairwise_lt_range _)
  intro a a' hlt b hb b' hb'
  rw [analysisStep_time hb, analysisStep_time hb']
  exact_mod_cast hlt

/-- C1 (amended): for every per-window detector, waveform and sample rate,
analyzeAudioBuffer terminates (it is a total function) and the returned
segment list has strictly increasing start times. The non-overlap half of
the original claim is false: see the counterexample below. -/
theorem analyzeAudioBuffer_times_strictly_increasing
    (det : List ℚ → String × ℚ) (channelData : List ℚ) (sampleRate : ℚ) :
    (analyzeAudioBuffer det channelData sampleRate).Pairwise
      (fun a b => a.time < b.time) := by
  unfold analyzeAudioBuffer
  have hp := provisional_times_pairwise det channelData sampleRate
  cases hcase : provisionalChords det channelData sampleRate with
  | nil =>
    simp [mergeConsecutiveChords]
  | cons c rest =>
    rw [hcase] at hp
    show (mergeAux c rest).Pairwise (fun a b => a.time < b.time)
    have hsub := mergeAux_times_sublist rest c
    have hmap : ((c :: rest).map ChordSegment.time).Pairwise (· < ·) :=
      List.pairwise_map.mpr hp
    exact List.pairwise_map.mp (hmap.sublist hsub)

/-- Detector used by the overlap counterexample: it assigns different chord
names to the two analysis windows of the sample list [0, 1, 2, 3] at
sample rate 1 (windows [0, 1] and [1, 2]), both with confidence 1. -/
def overlapDet : List ℚ → String × ℚ :=
  fun w => if w = [0, 1] then ("C", 1) else ("D", 1)

/-- C1 counterexample: with window duration 2 s and hop 1 s, two adjacent
emitted segments with different names overlap: the output is C at [0, 2)
followed by D at [1, 3), and 0 + 2 ≤ 1 fails, refuting the non-overlap
half of the claim. -/
theorem analyzeAudioBuffer_overlap_counterexample :
    analyzeAudioBuffer overlapDet [0, 1, 2, 3] 1 =
      [{ name := "C", time := 0, duration := 2, confidence := 1 },
       { name := "D", time := 1, duration := 2, confidence := 1 }] ∧
    ¬ (analyzeAudioBuffer overlapDet [0, 1, 2, 3] 1).Pairwise
        (fun a b => a.time + a.duration ≤ b.time) := by
  have h1 : ⌈durationOf [0, 1, 2, 3] 1 - 2⌉₊ = 2 := by
    norm_num [durationOf]
  have hw0 : windowAt [0, 1, 2, 3] 1 0 = [0, 1] := by
    norm_num [windowAt, Int.toNat_ofNat, List.take, List.drop]
  have hw1 : windowAt [0, 1, 2, 3] 1 1 = [1, 2] := by
    norm_num [windowAt, Int.toNat_ofNat, List.take, List.drop]
  have hval : analyzeAudioBuffer overlapDet [0, 1, 2, 3] 1 =
      [{ name := "C", time := 0, duration := 2, confidence := 1 },
       { name := "D", time := 1, duration := 2, confidence := 1 }] := by
    norm_num [analyzeAudioBuffer, provisionalChords, h1, List.range_succ,
      List.filterMap_cons, analysisStep, hw0, hw1,
      overlapDet, mergeConsecutiveChords, mergeAux]
    decide
  refine ⟨hval, ?_⟩
  rw [hval]
  rw [List.pairwise_cons]
  intro hcon
  have := hcon.1 _ (List.mem_cons_self _ _)
  norm_num at this

/-- C5: the merge pass maps the empty list to the empty list; whenever the
first segment's name equals the second segment's name it replaces the pair
by one segment keeping the first start time, with duration next.time +
next.duration - current.time and the maximum confidence; and in its output
no two adjacent segments share a name. -/
theorem mergeConsecutiveChords_spec :
    mergeConsecutiveChords [] = [] ∧
    (∀ (a b : ChordSegment) (rest : List ChordSegment), a.name = b.name →
      mergeConsecutiveChords (a :: b :: rest) =
        mergeConsecutiveChords
          ({ name := a.name, time := a.time,
             duration := b.time + b.duration - a.time,
             confidence := max a.confidence b.confidence } :: rest)) ∧
    (∀ l : List ChordSegment,
      (mergeConsecutiveChords l).Chain' (fun x y => x.name ≠ y.name)) := by
  refine ⟨rfl, ?_, ?_⟩
  · intro a b rest h
    show mergeAux a (b :: rest) = _
    simp only [mergeAux]
    rw [if_pos h.symm]
    rfl
  · intro l
    cases l with
    | nil => simp [mergeConsecutiveChords]
    | cons c rest => exact mergeAux_chain_ne rest c

/-- C5 witness: the pair-merge equation at a concrete pair of same-name
segments. -/
theorem mergeConsecutiveChords_spec_witness :
    ({ name := "C", time := 0, duration := 2, confidence := 1/2 } :
        ChordSegment).name =
      ({ name := "C", time := 1, duration := 2, confidence := 3/4 } :
        ChordSegment).name ∧
    mergeConsecutiveChords
        [{ name := "C", time := 0, duration := 2, confidence := 1/2 },
         { name := "C", time := 1, duration := 2, confidence := 3/4 }] =
      mergeConsecutiveChords
        [{ name := "C", time := 0, duration := 1 + 2 - 0,
           confidence := max (1/2) (3/4) }] :=
  ⟨rfl,
   mergeConsecutiveChords_spec.2.1
     { name := "C", time := 0, duration := 2, confidence := 1/2 }
     { name := "C", time := 1, duration := 2, confidence := 3/4 }
     [] rfl⟩

/-- When the waveform is empty (its duration is 0 at every sample rate,
matching the source's zero loop iterations for an empty buffer) or the
sample rate is strictly negative (the source's duration is then negative
too), the duration is at most 2 seconds, so the sliding loop runs zero
iterations. Sample rate exactly 0 with non-empty samples is excluded: the
source's duration is Infinity there and its loop never terminates. -/
theorem hopCount_zero_of_invalid (channelData : List ℚ) (sampleRate : ℚ)
    (h : channelData = [] ∨ sampleRate < 0) :
    ⌈durationOf channelData sampleRate - 2⌉₊ = 0 := by
  apply Nat.ceil_eq_zero.2
  have hd : durationOf channelData sampleRate ≤ 2 := by
    rcases h with rfl | hsr
    · simp [durationOf]
    · unfold durationOf
      have hnum : (0:ℚ) ≤ (channelData.length : ℚ) := Nat.cast_nonneg _
      have : (channelData.length : ℚ) / sampleRate ≤ 0 :=
        div_nonpos_of_nonneg_of_nonpos hnum hsr.le
      linarith
  linarith

/-- C2 (amended): analyzeAudioBuffer performs no input validation and the
repository defines no EmptyInputError; for an empty sample sequence (at
any sample rate) and for a strictly negative sample rate the sliding loop
body never runs and the ordinary empty segment list is returned, with no
error and no partial data. (At sample rate exactly 0 with non-empty
samples the source's duration is Infinity and its loop never terminates —
also no EmptyInputError — but that divergent case is outside this
rational embedding and outside this statement.) -/
theorem analyzeAudioBuffer_invalid_input_returns_empty
    (det : List ℚ → String × ℚ) (channelData : List ℚ) (sampleRate : ℚ)
    (h : channelData = [] ∨ sampleRate < 0) :
    analyzeAudioBuffer det channelData sampleRate = [] ∧
    provisionalChords det channelData sampleRate = [] := by
  have hzero := hopCount_zero_of_invalid channelData sampleRate h
  have hprov : provisionalChords det channelData sampleRate = [] := by
    unfold provisionalChords
    rw [hzero]
    rfl
  refine ⟨?_, hprov⟩
  unfold analyzeAudioBuffer
  rw [hprov]
  rfl

/-- C2 witness: the theorem applied to the empty waveform at sample rate 1. -/
theorem analyzeAudioBuffer_invalid_input_witness :
    (([] : List ℚ) = [] ∨ (1:ℚ) < 0) ∧
    (analyzeAudioBuffer (fun _ => ("C", 1)) [] 1 = [] ∧
     provisionalChords (fun _ => ("C", 1)) [] 1 = []) :=
  ⟨Or.inl rfl,
   analyzeAudioBuffer_invalid_input_returns_empty
     (fun _ => ("C", 1)) [] 1 (Or.inl rfl)⟩

/-- C2 counterexample: on the empty waveform (a case squarely inside the
claim's scope), and likewise on a negative sample rate, analyzeAudioBuffer
produces the ordinary value [] — no EmptyInputError is raised, and the
code has no error channel at all: its result type is a plain segment
list. -/
theorem analyzeAudioBuffer_no_error_counterexample :
    analyzeAudioBuffer (fun _ => ("D", 1)) [] 1 = [] ∧
    analyzeAudioBuffer (fun _ => ("D", 1)) [1, 1, 1] (-1) = [] := by
  constructor
  · have hzero := hopCount_zero_of_invalid ([] : List ℚ) 1 (Or.inl rfl)
    unfold analyzeAudioBuffer provisionalChords
    rw [hzero]
    rfl
  · have hzero := hopCount_zero_of_invalid [1, 1, 1] (-1)
      (Or.inr (by norm_num))
    unfold analyzeAudioBuffer provisionalChords
    rw [hzero]
    rfl

/-- C6 (amended): a provisional segment is emitted for exactly the hop
positions t = n (n = 0, 1, 2, ... seconds, hop 1 s) with t + 2 strictly
less than the total duration whose detected confidence is strictly greater
than the threshold 0.3; the emitted segment is {name, time t, duration 2,
confidence}. In particular a position with t + 2 equal to the total
duration is not analyzed, and confidence exactly 0.3 is not emitted (see
the counterexample). -/
theorem provisional_emission_characterization (det : List ℚ → String × ℚ)
    (channelData : List ℚ) (sampleRate : ℚ) (s : ChordSegment) :
    s ∈ provisionalChords det channelData sampleRate ↔
    ∃ n : ℕ, (n : ℚ) + 2 < durationOf channelData sampleRate ∧
      3 / 10 < (det (windowAt channelData sampleRate n)).2 ∧
      s = { name := (det (windowAt channelData sampleRate n)).1,
            time := (n : ℚ), duration := 2,
            confidence := (det (windowAt channelData sampleRate n)).2 } := by
  unfold provisionalChords
  rw [List.mem_filterMap]
  constructor
  · rintro ⟨n, hn, hstep⟩
    rw [List.mem_range] at hn
    have hn2 : (n : ℚ) < durationOf channelData sampleRate - 2 :=
      Nat.lt_ceil.mp hn
    refine ⟨n, by linarith, ?_, ?_⟩
    · simp only [analysisStep] at hstep
      split at hstep
      · assumption
      · cases hstep
    · simp only [analysisStep] at hstep
      split at hstep
      · exact (Option.some.inj hstep).symm
      · cases hstep
  · rintro ⟨n, h1, h2, rfl⟩
    refine ⟨n, ?_, ?_⟩
    · rw [List.mem_range]
      exact Nat.lt_ceil.mpr (by linarith)
    · simp only [analysisStep]
      rw [if_pos h2]

/-- C6 counterexample: a 2-sample waveform at rate 1 has total duration
exactly 2 s, so the position t = 0 satisfies t + W = totalDuration; the
claim says it is analyzed and (confidence 1 ≥ 0.3) emitted, but the loop
bound is strict and nothing is emitted. A 4-sample waveform at rate 1 has
positions t = 0, 1 analyzed; with confidence exactly 0.3 = T the claim
says they are emitted, but the threshold is strict and nothing is
emitted. -/
theorem provisional_boundary_counterexample :
    durationOf [1, 1] 1 = 2 ∧
    provisionalChords (fun _ => ("C", 1)) [1, 1] 1 = [] ∧
    analyzeAudioBuffer (fun _ => ("C", 1)) [1, 1] 1 = [] ∧
    durationOf [1, 1, 1, 1] 1 = 4 ∧
    provisionalChords (fun _ => ("C", 3/10)) [1, 1, 1, 1] 1 = [] ∧
    analyzeAudioBuffer (fun _ => ("C", 3/10)) [1, 1, 1, 1] 1 = [] := by
  have hd2 : durationOf [1, 1] 1 = 2 := by norm_num [durationOf]
  have hd4 : durationOf [1, 1, 1, 1] 1 = 4 := by norm_num [durationOf]
  have hz : ⌈durationOf [1, 1] 1 - 2⌉₊ = 0 := by
    rw [hd2]; norm_num
  have hp1 : provisionalChords (fun _ => ("C", 1)) [1, 1] 1 = [] := by
    unfold provisionalChords
    rw [hz]
    rfl
  have h4 : ⌈durationOf [1, 1, 1, 1] 1 - 2⌉₊ = 2 := by
    rw [hd4]; norm_num
  have hp2 : provisionalChords (fun _ => ("C", 3/10)) [1, 1, 1, 1] 1 = [] := by
    unfold provisionalChords
    rw [h4]
    norm_num [List.range_succ, List.filterMap_cons, analysisStep]
  refine ⟨hd2, hp1, ?_, hd4, hp2, ?_⟩
  · unfold analyzeAudioBuffer
    rw [hp1]
    rfl
  · unfold analyzeAudioBuffer
    rw [hp2]
    rfl

/-- C3: evidence for the template-bank bug. The mask stored under "Am"
marks pitch classes {0, 3, 7} = {C, D#, G} — the C minor triad — instead
of the A minor triad {9, 0, 4} = {A, C, E} required by the claim and by
the source's own comment on that line; it is in fact identical to the
mask stored under "Cm". (The masks under "A#m" and "Bm" are likewise the
C# minor and D minor triads.) -/
theorem chordTemplates_Am_mask_wrong :
    List.lookup "Am" chordTemplates =
      some [1, 0, 0, 1, 0, 0, 0, 1, 0, 0, 0, 0] ∧
    markedClasses [1, 0, 0, 1, 0, 0, 0, 1, 0, 0, 0, 0] = [0, 3, 7] ∧
    minorTriad 9 = [9, 0, 4] ∧
    List.lookup "Cm" chordTemplates = List.lookup "Am" chordTemplates := by
  refine ⟨?_, ?_, ?_, ?_⟩
  · simp [chordTemplates, List.lookup]
  · simp [markedClasses, List.range_succ, List.filter]
  · simp [minorTriad]
  · simp [chordTemplates, List.lookup]

/-- The chord-name sequence of Scenario B: "C", "Am", "F" in repeating
order, looped 4 times. -/
def scenarioBNames : List String :=
  ["C", "Am", "F", "C", "Am", "F", "C", "Am", "F", "C", "Am", "F"]

/-- C4 counterexample: on the Scenario B name sequence detectKey does not
return "C major" — indeed it never returns a string of that shape — and it
does not return the key "C" either. -/
theorem detectKey_scenarioB_counterexample :
    detectKey scenarioBNames ≠ "C major" ∧ detectKey scenarioBNames ≠ "C" := by
  have hc : chordCounts scenarioBNames = [("C", 4), ("Am", 4), ("F", 4)] := by
    simp [scenarioBNames, chordCounts, addCount, List.foldl]
  have hkey : detectKey scenarioBNames = "Am" := by
    simp only [detectKey]
    rw [if_neg (by simp [scenarioBNames])]
    simp [hc, keyProfiles, keyScore, List.lookup, List.foldl]
    norm_num
  rw [hkey]
  constructor
  · simp
  · simp

/-- C4 (amended): on the Scenario B name sequence detectKey returns "Am"
(A minor, the relative minor): the A-minor profile weights all three of C,
Am and F at 3, scoring 4*(3+3+3) = 36, while the C-major profile weights
Am at only 2, scoring 4*(3+2+3) = 32, and no key scores higher than 36. -/
theorem detectKey_scenarioB_returns_Am :
    keyScore (chordCounts scenarioBNames)
        ((keyProfiles.lookup "Am").getD []) = 36 ∧
    keyScore (chordCounts scenarioBNames)
        ((keyProfiles.lookup "C").getD []) = 32 ∧
    detectKey scenarioBNames = "Am" := by
  have hc : chordCounts scenarioBNames = [("C", 4), ("Am", 4), ("F", 4)] := by
    simp [scenarioBNames, chordCounts, addCount, List.foldl]
  refine ⟨?_, ?_, ?_⟩
  · simp [hc, keyProfiles, keyScore, List.lookup]
    norm_num
  · simp [hc, keyProfiles, keyScore, List.lookup]
    norm_num
  · simp only [detectKey]
    rw [if_neg (by simp [scenarioBNames])]
    simp [hc, keyProfiles, keyScore, List.lookup, List.foldl]
    norm_num

/-- The segment list of Scenario C: start times 0, 2, 4, 6, 8 seconds. -/
def scenarioC : List ChordSegment :=
  [{ name := "C", time := 0, duration := 2, confidence := 1 },
   { name := "C", time := 2, duration := 2, confidence := 1 },
   { name := "C", time := 4, duration := 2, confidence := 1 },
   { name := "C", time := 6, duration := 2, confidence := 1 },
   { name := "C", time := 8, duration := 2, confidence := 1 }]

/-- C9: on the Scenario C start times the four inter-onset intervals are
all 2 s, the outlier filter removes nothing, the median interval 2 s gives
30 BPM, the octave correction doubles it to 60, the snap table maps 60 to
60, and estimateTempo returns 60. -/
theorem estimateTempo_scenarioC :
    intervalsOf scenarioC = [2, 2, 2, 2] ∧
    filteredIntervalsOf scenarioC = [2, 2, 2, 2] ∧
    tempoFromIntervals [2, 2, 2, 2] = 60 ∧
    snapToCommonBPM 60 = 60 ∧
    estimateTempo scenarioC = 60 := by
  have h1 : intervalsOf scenarioC = [2, 2, 2, 2] := by
    simp [scenarioC, intervalsOf]
    norm_num
  have hm : meanOf [2, 2, 2, 2] = 2 := by
    simp [meanOf]; norm_num
  have hv : varianceOf [2, 2, 2, 2] = 0 := by
    simp [varianceOf, hm]
  have h2 : filteredIntervalsOf scenarioC = [2, 2, 2, 2] := by
    simp [filteredIntervalsOf, h1, hm, hv, List.filter]
    norm_num
  have h3 : tempoFromIntervals [2, 2, 2, 2] = 60 := by
    simp [tempoFromIntervals, List.insertionSort, List.orderedInsert,
      snapToCommonBPM, commonBPMs, List.foldl]
    norm_num
  have h4 : snapToCommonBPM 60 = 60 := by
    simp [snapToCommonBPM, commonBPMs, List.foldl]
    norm_num
  refine ⟨h1, h2, h3, h4, ?_⟩
  rw [estimateTempo]
  rw [if_neg (by simp [scenarioC])]
  simp only [h2]
  rw [if_neg (by simp)]
  exact h3

/-- A value strictly below every element of a nonempty list is strictly
below the average: c * length < sum. -/
theorem mul_length_lt_sum (l : List ℚ) (c : ℚ) (hne : l ≠ [])
    (h : ∀ x ∈ l, c < x) : c * (l.length : ℚ) < l.sum := by
  induction l with
  | nil => exact absurd rfl hne
  | cons x rest ih =>
    rcases eq_or_ne rest [] with rfl | hr
    · have hx := h x (List.mem_cons_self _ _)
      simp only [List.sum_cons, List.sum_nil, List.length_cons,
        List.length_nil]
      push_cast
      linarith
    · have hx := h x (List.mem_cons_self _ _)
      have hrec := ih hr (fun y hy => h y (List.mem_cons_of_mem _ hy))
      simp only [List.sum_cons, List.length_cons]
      push_cast
      linarith

/-- In every nonempty list some element's squared deviation from the mean
is at most the population variance: the minimal squared deviation cannot
exceed their average. -/
theorem exists_near_mean (l : List ℚ) (hne : l ≠ []) :
    ∃ x ∈ l, (x - meanOf l) ^ 2 ≤ varianceOf l := by
  by_contra hcon
  push_neg at hcon
  have hlen : (0 : ℚ) < (l.length : ℚ) := by
    have := List.length_pos.mpr hne
    exact_mod_cast this
  have hmapne : l.map (fun x => (x - meanOf l) ^ 2) ≠ [] := by
    simpa using hne
  have hstep : ∀ y ∈ l.map (fun x => (x - meanOf l) ^ 2),
      varianceOf l < y := by
    intro y hy
    obtain ⟨x, hx, rfl⟩ := List.mem_map.mp hy
    exact hcon x hx
  have h1 := mul_length_lt_sum _ _ hmapne hstep
  rw [List.length_map] at h1
  have h2 : varianceOf l * (l.length : ℚ) =
      (l.map (fun x => (x - meanOf l) ^ 2)).sum := by
    unfold varianceOf
    field_simp
  rw [h2] at h1
  exact lt_irrefl _ h1

/-- With at least 3 segments the interval list is nonempty and the
2-standard-deviation outlier filter keeps at least one interval: an
interval of minimal deviation is within one variance, hence within four. -/
theorem filteredIntervalsOf_ne_nil (chords : List ChordSegment)
    (h : 3 ≤ chords.length) : filteredIntervalsOf chords ≠ [] := by
  have hne : intervalsOf chords ≠ [] := by
    have hlen : (intervalsOf chords).length =
        min chords.length chords.tail.length := List.length_zipWith _ _ _
    rw [List.length_tail] at hlen
    intro hnil
    rw [hnil] at hlen
    simp at hlen
    omega
  obtain ⟨x, hx, hxv⟩ := exists_near_mean (intervalsOf chords) hne
  have hvar : 0 ≤ varianceOf (intervalsOf chords) := by
    unfold varianceOf
    apply div_nonneg
    · apply List.sum_nonneg
      intro y hy
      obtain ⟨z, _, rfl⟩ := List.mem_map.mp hy
      positivity
    · positivity
  apply List.ne_nil_of_mem (a := x)
  unfold filteredIntervalsOf
  simp only [List.mem_filter, decide_eq_true_eq]
  exact ⟨hx, by linarith⟩

/-- C10: for every input of at least 3 segments the outlier filter of
estimateTempo retains at least one interval, so the branch returning the
default 120 BPM for an empty filtered list is unreachable and the tempo is
always computed from the filtered intervals. -/
theorem estimateTempo_filter_retains (chords : List ChordSegment)
    (h : 3 ≤ chords.length) :
    filteredIntervalsOf chords ≠ [] ∧
    estimateTempo chords = tempoFromIntervals (filteredIntervalsOf chords) := by
  have h1 := filteredIntervalsOf_ne_nil chords h
  refine ⟨h1, ?_⟩
  rw [estimateTempo]
  rw [if_neg (by omega)]
  show (if filteredIntervalsOf chords = [] then (120 : ℚ)
        else tempoFromIntervals (filteredIntervalsOf chords)) = _
  rw [if_neg h1]

/-- C10 witness: the theorem applied to a concrete 3-segment list. -/
theorem estimateTempo_filter_retains_witness :
    3 ≤ ([{ name := "C", time := 0, duration := 1, confidence := 1 },
          { name := "C", time := 1, duration := 1, confidence := 1 },
          { name := "C", time := 2, duration := 1, confidence := 1 }] :
          List ChordSegment).length ∧
    (filteredIntervalsOf
        [{ name := "C", time := 0, duration := 1, confidence := 1 },
         { name := "C", time := 1, duration := 1, confidence := 1 },
         { name := "C", time := 2, duration := 1, confidence := 1 }] ≠ [] ∧
     estimateTempo
        [{ name := "C", time := 0, duration := 1, confidence := 1 },
         { name := "C", time := 1, duration := 1, confidence := 1 },
         { name := "C", time := 2, duration := 1, confidence := 1 }] =
       tempoFromIntervals (filteredIntervalsOf
        [{ name := "C", time := 0, duration := 1, confidence := 1 },
         { name := "C", time := 1, duration := 1, confidence := 1 },
         { name := "C", time := 2, duration := 1, confidence := 1 }])) :=
  ⟨by simp,
   estimateTempo_filter_retains _ (by simp)⟩

/-- A fold preserves any invariant its step preserves. -/
theorem foldl_preserves {α β : Type} (P : β → Prop) (f : β → α → β) :
    ∀ (l : List α) (b : β), P b → (∀ (b : β) (a : α), P b → P (f b a)) →
      P (l.foldl f b) := by
  intro l
  induction l with
  | nil => intro b hb _; exact hb
  | cons x rest ih => intro b hb hf; exact ih (f b x) (hf b x hb) hf

/-- getD with default 0 of a list of nonnegative entries is nonnegative. -/
theorem listGetD_nonneg {l : List ℚ} (h : ∀ x ∈ l, 0 ≤ x) (i : ℕ) :
    0 ≤ l.getD i 0 := by
  rw [List.getD_eq_getElem?_getD]
  cases hx : l[i]? with
  | none => simp
  | some v =>
    simp only [Option.getD_some]
    exact h v (List.getElem?_mem hx)

/-- getD with default 0 of an all-zero list is zero. -/
theorem listGetD_zero {l : List ℚ} (h : ∀ x ∈ l, x = 0) (i : ℕ) :
    l.getD i 0 = 0 := by
  rw [List.getD_eq_getElem?_getD]
  cases hx : l[i]? with
  | none => simp
  | some v =>
    simp only [Option.getD_some]
    exact h v (List.getElem?_mem hx)

/-- addToChroma keeps the vector length. -/
theorem addToChroma_length (ch : List ℚ) (i : Fin 12) (v : ℚ) :
    (addToChroma ch i v).length = ch.length := List.length_set ch _ _

/-- addToChroma keeps all entries nonnegative when the added magnitude is
nonnegative. -/
theorem addToChroma_nonneg {ch : List ℚ} (h : ∀ x ∈ ch, 0 ≤ x) (i : Fin 12)
    {v : ℚ} (hv : 0 ≤ v) : ∀ x ∈ addToChroma ch i v, 0 ≤ x := by
  intro x hx
  rcases List.mem_or_eq_of_mem_set hx with hmem | rfl
  · exact h x hmem
  · have := listGetD_nonneg h i
    linarith

/-- addToChroma of a zero magnitude keeps an all-zero vector all-zero. -/
theorem addToChroma_zero {ch : List ℚ} (h : ∀ x ∈ ch, x = 0) (i : Fin 12) :
    ∀ x ∈ addToChroma ch i 0, x = 0 := by
  intro x hx
  rcases List.mem_or_eq_of_mem_set hx with hmem | rfl
  · exact h x hmem
  · rw [listGetD_zero h i]
    norm_num

/-- The bin loop keeps a 12-entry nonnegative chroma vector 12-entry and
nonnegative when all magnitudes are nonnegative. -/
theorem subWindowChroma_inv (mags : List ℚ → List ℚ) (pc : ℚ → Fin 12)
    (sampleRate : ℚ) (w : List ℚ)
    (hmag : ∀ wd i, 0 ≤ (mags wd).getD i 0) (ch : List ℚ)
    (h12 : ch.length = 12) (hn : ∀ x ∈ ch, 0 ≤ x) :
    (subWindowChroma mags pc sampleRate w ch).length = 12 ∧
    ∀ x ∈ subWindowChroma mags pc sampleRate w ch, 0 ≤ x := by
  unfold subWindowChroma
  refine foldl_preserves
    (fun ch : List ℚ => ch.length = 12 ∧ ∀ x ∈ ch, 0 ≤ x) _ _ ch ⟨h12, hn⟩ ?_
  rintro b a ⟨hb12, hbn⟩
  dsimp only
  split
  · exact ⟨(addToChroma_length _ _ _).trans hb12,
      addToChroma_nonneg hbn _ (hmag w a)⟩
  · exact ⟨hb12, hbn⟩

/-- The bin loop keeps an all-zero chroma vector all-zero when the window's
magnitudes are all zero. -/
theorem subWindowChroma_zero (mags : List ℚ → List ℚ) (pc : ℚ → Fin 12)
    (sampleRate : ℚ) (w : List ℚ)
    (hmagz : ∀ i, (mags w).getD i 0 = 0) (ch : List ℚ)
    (hz : ∀ x ∈ ch, x = 0) :
    ∀ x ∈ subWindowChroma mags pc sampleRate w ch, x = 0 := by
  unfold subWindowChroma
  refine foldl_preserves (fun ch : List ℚ => ∀ x ∈ ch, x = 0) _ _ ch hz ?_
  intro b a hb
  dsimp only
  split
  · rw [hmagz a]
    exact addToChroma_zero hb _
  · exact hb

/-- The accumulated chroma vector has 12 entries, all nonnegative, for every
magnitude function with nonnegative values. -/
theorem chromaAccum_inv (mags : List ℚ → List ℚ) (pc : ℚ → Fin 12)
    (audioData : List ℚ) (sampleRate : ℚ)
    (hmag : ∀ wd i, 0 ≤ (mags wd).getD i 0) :
    (chromaAccum mags pc audioData sampleRate).length = 12 ∧
    ∀ x ∈ chromaAccum mags pc audioData sampleRate, 0 ≤ x := by
  unfold chromaAccum
  refine foldl_preserves
    (fun ch : List ℚ => ch.length = 12 ∧ ∀ x ∈ ch, 0 ≤ x) _ _ _ ?_ ?_
  · refine ⟨List.length_replicate _ _, ?_⟩
    intro x hx
    rw [(List.mem_replicate.mp hx).2]
  · rintro b a ⟨hb12, hbn⟩
    exact subWindowChroma_inv mags pc sampleRate _ hmag b hb12 hbn

/-- On an all-zero waveform the accumulated chroma vector is all-zero,
provided the magnitude function is zero on all-zero frames (true of the
source: the DFT of a zero frame is zero). -/
theorem chromaAccum_silent (mags : List ℚ → List ℚ) (pc : ℚ → Fin 12)
    (audioData : List ℚ) (sampleRate : ℚ)
    (hz : ∀ w, (∀ x ∈ w, x = (0:ℚ)) → ∀ i, (mags w).getD i 0 = 0)
    (hdata : ∀ s ∈ audioData, s = 0) :
    ∀ x ∈ chromaAccum mags pc audioData sampleRate, x = 0 := by
  unfold chromaAccum
  refine foldl_preserves (fun ch : List ℚ => ∀ x ∈ ch, x = 0) _ _ _ ?_ ?_
  · intro x hx
    exact (List.mem_replicate.mp hx).2
  · intro b a hb
    refine subWindowChroma_zero mags pc sampleRate _ ?_ b hb
    apply hz
    intro x hx
    exact hdata x (List.mem_of_mem_drop (List.mem_of_mem_take hx))

/-- Every member of a nonempty rational list is at most the default-0
unbottomed maximum. -/
theorem le_maximum_unbot {A : List ℚ} {x : ℚ} (hx : x ∈ A) :
    x ≤ A.maximum.unbot' 0 := by
  cases hAm : A.maximum with
  | bot =>
    exact absurd (List.maximum_eq_bot.mp hAm ▸ hx) (List.not_mem_nil x)
  | coe v =>
    have := List.le_maximum_of_mem hx hAm
    simpa [WithBot.unbot'] using this

/-- The default-0 unbottomed maximum of a nonempty list is a member. -/
theorem maximum_unbot_mem {A : List ℚ} (hne : A ≠ []) :
    A.maximum.unbot' 0 ∈ A := by
  cases hAm : A.maximum with
  | bot => exact absurd (List.maximum_eq_bot.mp hAm) hne
  | coe v =>
    have := List.maximum_mem hAm
    simpa [WithBot.unbot'] using this

/-- extractChromaFeatures in terms of its accumulation phase and the
normalisation guard (definitional unfolding). -/
theorem extractChromaFeatures_eq (mags : List ℚ → List ℚ) (pc : ℚ → Fin 12)
    (audioData : List ℚ) (sampleRate : ℚ) :
    extractChromaFeatures mags pc audioData sampleRate =
      (if (chromaAccum mags pc audioData sampleRate).maximum.unbot' 0 > 0
       then (chromaAccum mags pc audioData sampleRate).map
         (fun x =>
           x / (chromaAccum mags pc audioData sampleRate).maximum.unbot' 0)
       else chromaAccum mags pc audioData sampleRate) := rfl

/-- C7 (amended): for every magnitude function with nonnegative values (as
in the source, where magnitudes are square roots), every pitch-class map,
waveform window and sample rate: the chroma vector has exactly 12 entries,
all nonnegative; if the accumulated (pre-normalisation) vector has a
strictly positive entry then the returned vector attains the value 1 and
all entries are at most 1; and on a fully silent window (given that the
magnitude function is zero on zero frames, as the source's DFT is) every
entry is 0. The original claim's stronger trigger — mere non-silence of
the window — is refuted by the counterexample below. -/
theorem extractChromaFeatures_spec (mags : List ℚ → List ℚ) (pc : ℚ → Fin 12)
    (audioData : List ℚ) (sampleRate : ℚ)
    (hmag : ∀ w i, 0 ≤ (mags w).getD i 0) :
    (extractChromaFeatures mags pc audioData sampleRate).length = 12 ∧
    (∀ x ∈ extractChromaFeatures mags pc audioData sampleRate, 0 ≤ x) ∧
    ((∃ y ∈ chromaAccum mags pc audioData sampleRate, 0 < y) →
      1 ∈ extractChromaFeatures mags pc audioData sampleRate ∧
      ∀ x ∈ extractChromaFeatures mags pc audioData sampleRate, x ≤ 1) ∧
    ((∀ s ∈ audioData, s = 0) →
      (∀ w, (∀ x ∈ w, x = (0:ℚ)) → ∀ i, (mags w).getD i 0 = 0) →
      ∀ x ∈ extractChromaFeatures mags pc audioData sampleRate, x = 0) := by
  obtain ⟨h12, hnn⟩ := chromaAccum_inv mags pc audioData sampleRate hmag
  have hne : chromaAccum mags pc audioData sampleRate ≠ [] := by
    intro hc
    rw [hc] at h12
    simp at h12
  rw [extractChromaFeatures_eq]
  by_cases hpos :
      (chromaAccum mags pc audioData sampleRate).maximum.unbot' 0 > 0
  · rw [if_pos hpos]
    refine ⟨?_, ?_, ?_, ?_⟩
    · rw [List.length_map]
      exact h12
    · intro x hx
      obtain ⟨a, ha, rfl⟩ := List.mem_map.mp hx
      exact div_nonneg (hnn a ha) hpos.le
    · intro _
      constructor
      · exact List.mem_map.mpr
          ⟨(chromaAccum mags pc audioData sampleRate).maximum.unbot' 0,
           maximum_unbot_mem hne, div_self (ne_of_gt hpos)⟩
      · intro x hx
        obtain ⟨a, ha, rfl⟩ := List.mem_map.mp hx
        rw [div_le_one hpos]
        exact le_maximum_unbot ha
    · intro hdata hz
      exfalso
      have hall := chromaAccum_silent mags pc audioData sampleRate hz hdata
      have hm := maximum_unbot_mem hne
      have := hall _ hm
      linarith
  · rw [if_neg hpos]
    refine ⟨h12, hnn, ?_, ?_⟩
    · rintro ⟨y, hy, hy0⟩
      exact absurd (lt_of_lt_of_le hy0 (le_maximum_unbot hy)) hpos
    · intro hdata hz
      exact chromaAccum_silent mags pc audioData sampleRate hz hdata

/-- C7 witness: the theorem applied at a concrete magnitude function (the
constant empty spectrum), pitch-class map, waveform and sample rate. -/
theorem extractChromaFeatures_spec_witness :
    (∀ (w : List ℚ) (i : ℕ),
        0 ≤ (((fun _ => []) : List ℚ → List ℚ) w).getD i 0) ∧
    ((extractChromaFeatures (fun _ => []) (fun _ => 0) [] 1).length = 12 ∧
     (∀ x ∈ extractChromaFeatures (fun _ => []) (fun _ => 0) [] 1, 0 ≤ x) ∧
     ((∃ y ∈ chromaAccum (fun _ => []) (fun _ => 0) [] 1, 0 < y) →
       1 ∈ extractChromaFeatures (fun _ => []) (fun _ => 0) [] 1 ∧
       ∀ x ∈ extractChromaFeatures (fun _ => []) (fun _ => 0) [] 1, x ≤ 1) ∧
     ((∀ s ∈ ([] : List ℚ), s = 0) →
       (∀ w, (∀ x ∈ w, x = (0:ℚ)) →
         ∀ i, ((((fun _ => []) : List ℚ → List ℚ)) w).getD i 0 = 0) →
       ∀ x ∈ extractChromaFeatures (fun _ => []) (fun _ => 0) [] 1, x = 0)) :=
  ⟨fun w i => by simp,
   extractChromaFeatures_spec (fun _ => []) (fun _ => 0) [] 1
     (fun w i => by simp)⟩

/-- The magnitude function of the short-window counterexample (its value is
irrelevant: no 4096-sample sub-window fits in a 100-sample input). -/
def shortWindowMags : List ℚ → List ℚ := fun _ => List.replicate 2048 1

/-- The 100-sample all-ones (hence non-silent) waveform window. -/
def shortWindowData : List ℚ := List.replicate 100 1

/-- C7 counterexample: a non-silent window of 100 samples yields the
all-zero chroma vector — no whole 4096-sample sub-window fits, so nothing
is accumulated — and in particular its maximum entry is not 1.0, refuting
the claim that every non-silent window normalises to maximum exactly 1. -/
theorem extractChromaFeatures_nonsilent_counterexample :
    extractChromaFeatures shortWindowMags (fun _ => 0) shortWindowData 44100 =
      List.replicate 12 0 ∧
    (1 : ℚ) ∈ shortWindowData ∧
    (1 : ℚ) ∉
      extractChromaFeatures shortWindowMags (fun _ => 0) shortWindowData
        44100 := by
  have hacc : chromaAccum shortWindowMags (fun _ => 0) shortWindowData 44100 =
      List.replicate 12 0 := by
    unfold chromaAccum shortWindowData
    simp
  have hx : extractChromaFeatures shortWindowMags (fun _ => 0) shortWindowData
      44100 = List.replicate 12 0 := by
    rw [extractChromaFeatures_eq, hacc]
    rw [if_neg (by simp [List.replicate, List.maximum_cons])]
  refine ⟨hx, ?_, ?_⟩
  · simp [shortWindowData, List.mem_replicate]
  · rw [hx]
    simp [List.mem_replicate]

/-- C8: for every pair of nonnegative 12-entry vectors the similarity
computed by calculateCorrelation lies in [0, 1], and it equals exactly 0
whenever either squared magnitude is 0 (the guard prevents any division by
zero). -/
theorem calculateCorrelation_bounds (chroma template : Fin 12 → ℝ)
    (hc : ∀ i, 0 ≤ chroma i) (ht : ∀ i, 0 ≤ template i) :
    0 ≤ calculateCorrelation chroma template ∧
    calculateCorrelation chroma template ≤ 1 ∧
    (((∑ i, chroma i * chroma i) = 0 ∨
      (∑ i, template i * template i) = 0) →
      calculateCorrelation chroma template = 0) := by
  unfold calculateCorrelation
  by_cases h : (∑ i, chroma i * chroma i) = 0 ∨
      (∑ i, template i * template i) = 0
  · rw [if_pos h]
    exact ⟨le_refl 0, zero_le_one, fun _ => rfl⟩
  · rw [if_neg h]
    push_neg at h
    obtain ⟨h1, h2⟩ := h
    have hcm0 : 0 ≤ ∑ i, chroma i * chroma i :=
      Finset.sum_nonneg fun i _ => mul_nonneg (hc i) (hc i)
    have htm0 : 0 ≤ ∑ i, template i * template i :=
      Finset.sum_nonneg fun i _ => mul_nonneg (ht i) (ht i)
    have hcm : 0 < ∑ i, chroma i * chroma i := lt_of_le_of_ne hcm0 (Ne.symm h1)
    have htm : 0 < ∑ i, template i * template i :=
      lt_of_le_of_ne htm0 (Ne.symm h2)
    have hd0 : 0 ≤ ∑ i, chroma i * template i :=
      Finset.sum_nonneg fun i _ => mul_nonneg (hc i) (ht i)
    have hdenom : 0 < Real.sqrt (∑ i, chroma i * chroma i) *
        Real.sqrt (∑ i, template i * template i) :=
      mul_pos (Real.sqrt_pos.mpr hcm) (Real.sqrt_pos.mpr htm)
    refine ⟨div_nonneg hd0 hdenom.le, ?_, fun hcontra => absurd hcontra ?_⟩
    · rw [div_le_one hdenom]
      have hsq : (∑ i, chroma i * template i) ^ 2 ≤
          (∑ i, chroma i * chroma i) * ∑ i, template i * template i := by
        have := Finset.sum_mul_sq_le_sq_mul_sq Finset.univ chroma template
        calc (∑ i, chroma i * template i) ^ 2
            ≤ (∑ i, chroma i ^ 2) * ∑ i, template i ^ 2 := this
          _ = (∑ i, chroma i * chroma i) * ∑ i, template i * template i := by
              simp [sq]
      have hle : (∑ i, chroma i * template i) ≤
          Real.sqrt ((∑ i, chroma i * chroma i) *
            ∑ i, template i * template i) :=
        (Real.le_sqrt hd0 (mul_nonneg hcm0 htm0)).mpr hsq
      rw [← Real.sqrt_mul hcm0]
      exact hle
    · rintro (hcase | hcase)
      · exact absurd hcase (ne_of_gt hcm)
      · exact absurd hcase (ne_of_gt htm)

/-- C8 witness: the bounds at the all-ones chroma and template. -/
theorem calculateCorrelation_bounds_witness :
    (∀ i : Fin 12, (0:ℝ) ≤ (fun _ => (1:ℝ)) i) ∧
    (0 ≤ calculateCorrelation (fun _ => 1) (fun _ => 1) ∧
     calculateCorrelation (fun _ => 1) (fun _ => 1) ≤ 1 ∧
     (((∑ i : Fin 12, (fun _ => (1:ℝ)) i * (fun _ => (1:ℝ)) i) = 0 ∨
       (∑ i : Fin 12, (fun _ => (1:ℝ)) i * (fun _ => (1:ℝ)) i) = 0) →
       calculateCorrelation (fun _ => 1) (fun _ => 1) = 0)) :=
  ⟨fun _ => zero_le_one,
   calculateCorrelation_bounds (fun _ => 1) (fun _ => 1)
     (fun _ => zero_le_one) (fun _ => zero_le_one)⟩
